import Mathlib

/-!
Verification of the history-replay and dump-synthesis engine of a
ClearCase-to-Subversion conversion tool (cc2svn.py).

Byte strings of the Python source are modelled as lists of characters
(`Str`).  Each definition below mirrors the source function of the same
name; Python dictionaries are modelled as association lists (with the
iteration order made explicit where the source relies on it), in-place
mutation becomes explicit state passing, writes to the dump stream become
an `Event` trace, and the `WriteStream` enabled flag becomes a boolean tag
on each traced event.  A Python expression that raises an exception is
modelled with `Option` / an explicit halt flag.
-/

set_option maxRecDepth 2000

abbrev Str : Type := List Char

/-- Decimal rendering of a natural number, as Python's str(n). -/
def natRepr (n : Nat) : Str := (Nat.repr n).data

/-- Decimal rendering of an integer, as Python's str(i). -/
def intRepr (i : Int) : Str := (Int.repr i).data

/-! ## SvnProperties (cc2svn.py lines 295-332)

A property set: a dictionary from keys to values together with a running
total `totalLen` of the serialized byte length.  The dictionary is
modelled as an association list; `writeContent` only ever matters up to
total byte count for the claims below, so the list order stands in for
the dictionary's iteration order. -/

structure SvnProperties where
  keyset : List (Str × Str)
  totalLen : Int
deriving DecidableEq

/-- SvnProperties.__init__: empty key set, totalLen = len("PROPS-END\n") = 10. -/
def SvnProperties.init : SvnProperties := ⟨[], 10⟩

/-- The module-level shared EmptyProps object. -/
def EmptyProps : SvnProperties := SvnProperties.init

/-- calcPropLength: len("K "+str(len(key))+"\n"+key+"\n") + len("V "+str(len(value))+"\n"+value+"\n"). -/
def calcPropLength (key value : Str) : Nat :=
  ("K ".data ++ natRepr key.length ++ "\n".data ++ key ++ "\n".data).length +
  ("V ".data ++ natRepr value.length ++ "\n".data ++ value ++ "\n".data).length

/-- Dictionary lookup (keyset.get / has_key): first entry with the key. -/
def lookupKV : List (Str × Str) → Str → Option Str
  | [], _ => none
  | (k, v) :: rest, key => if k = key then some v else lookupKV rest key

/-- Dictionary update of an existing key (keyset[key] = value). -/
def setKV : List (Str × Str) → Str → Str → List (Str × Str)
  | [], _, _ => []
  | (k, v) :: rest, key, value =>
      if k = key then (k, value) :: rest else (k, v) :: setKV rest key value

/-- SvnProperties.set: subtract the old entry's length if the key is present,
store the value, add the new entry's length. -/
def SvnProperties.set (p : SvnProperties) (key value : Str) : SvnProperties :=
  match lookupKV p.keyset key with
  | some old =>
      { keyset := setKV p.keyset key value,
        totalLen := p.totalLen - (calcPropLength key old : Int) + (calcPropLength key value : Int) }
  | none =>
      { keyset := p.keyset ++ [(key, value)],
        totalLen := p.totalLen + (calcPropLength key value : Int) }

/-- SvnProperties.reset: clear the key set, totalLen back to 10. -/
def SvnProperties.reset (_p : SvnProperties) : SvnProperties := SvnProperties.init

/-- The bytes writeContent emits for one key/value pair.  The source writes
the value only when it is non-empty (`if value: out.write(value)`). -/
def propEntry (key value : Str) : Str :=
  "K ".data ++ natRepr key.length ++ "\n".data ++ key ++ "\n".data ++
  "V ".data ++ natRepr value.length ++ "\n".data ++
  (if value.isEmpty then [] else value) ++ "\n".data

/-- SvnProperties.writeContent: every key/value block followed by PROPS-END. -/
def SvnProperties.writeContent (p : SvnProperties) : Str :=
  (p.keyset.map fun kv => propEntry kv.1 kv.2).join ++ "PROPS-END\n".data

/-- SvnProperties.writeLength: the Prop-content-length header line. -/
def SvnProperties.writeLength (p : SvnProperties) : Str :=
  "Prop-content-length: ".data ++ intRepr p.totalLen ++ "\n".data

/-- One client operation on a property set. -/
inductive PropOp where
  | set (key value : Str)
  | reset
deriving DecidableEq

def applyPropOp (p : SvnProperties) : PropOp → SvnProperties
  | .set k v => p.set k v
  | .reset => p.reset

/-- A property set as built by any sequence of set/reset calls on a fresh object. -/
def applyPropOps (ops : List PropOp) : SvnProperties :=
  ops.foldl applyPropOp SvnProperties.init

/-- Sum of the serialized lengths of the entries of a key set. -/
def sumLens (ks : List (Str × Str)) : Int :=
  (ks.map fun kv => (calcPropLength kv.1 kv.2 : Int)).sum

/-! ## File content length measurement (cc2svn.py lines 461-499)

calculateLengthAndChecksum reads the file in FILEREAD_CHUNKSIZE chunks,
accumulating the length (and the md5 state).  The md5 digest itself is
kept abstract: the model takes the hex-digest function as a parameter. -/

def FILEREAD_CHUNKSIZE : Nat := 512

/-- The read loop of calculateLengthAndChecksum: take one chunk, add its
length, continue on the rest.  The first argument bounds the number of
loop iterations; the wrapper passes the content length, which is enough
because every iteration consumes at least one byte. -/
def chunkedLengthGo : Nat → Str → Nat
  | 0, _ => 0
  | fuel + 1, content =>
    if content = [] then 0
    else (content.take FILEREAD_CHUNKSIZE).length +
         chunkedLengthGo fuel (content.drop FILEREAD_CHUNKSIZE)

/-- The length accumulated by the read loop of calculateLengthAndChecksum. -/
def chunkedLength (content : Str) : Nat := chunkedLengthGo content.length content

/-- calculateLengthAndChecksum, with the digest function abstracted. -/
def calculateLengthAndChecksum (md5hex : Str → Str) (content : Str) : Nat × Str :=
  (chunkedLength content, md5hex content)

/-- The figure dumpSvnFile passes to writeContentLength:
textContentLength + props.totalLen. -/
def contentLengthValue (props : SvnProperties) (content : Str) : Int :=
  (chunkedLength content : Int) + props.totalLen

def writeNodePath (nodePath : Str) : Str :=
  "Node-path: ".data ++ (nodePath.map fun c => if c = '\\' then '/' else c) ++ "\n".data

def writeNodeKind (nodeKind : Str) : Str := "Node-kind: ".data ++ nodeKind ++ "\n".data

def writeNodeAction (nodeAction : Str) : Str := "Node-action: ".data ++ nodeAction ++ "\n".data

def writeTextContentLength (n : Nat) : Str := "Text-content-length: ".data ++ natRepr n ++ "\n".data

def writeContentLength (n : Int) : Str := "Content-length: ".data ++ intRepr n ++ "\n".data

/-- dumpSvnFile: the full byte sequence written for one file node. -/
def dumpSvnFile (md5hex : Str → Str) (action path : Str) (props : SvnProperties)
    (content : Str) : Str :=
  writeNodePath path ++ writeNodeKind "file".data ++ writeNodeAction action ++
  props.writeLength ++
  writeTextContentLength (calculateLengthAndChecksum md5hex content).1 ++
  "Text-content-md5: ".data ++ (calculateLengthAndChecksum md5hex content).2 ++ "\n".data ++
  writeContentLength (contentLengthValue props content) ++
  "\n".data ++
  props.writeContent ++
  content ++ "\n\n".data

/-! ## Glob matching and auto-props (cc2svn.py lines 336-365)

fnmatch.fnmatch semantics for the patterns of the auto-props file:
`*`, `?`, `[...]` classes with `!` negation and ranges, an unclosed `[`
taken literally.  SvnAutoProps stores the patterns in a dictionary, so
getProps scans them in the dictionary's iteration order; the model makes
that order an explicit list. -/

/-- Match a character against the body of a `[...]` class (ranges via `-`). -/
def rangesMatch : Str → Char → Bool
  | [], _ => false
  | a :: '-' :: b :: rest, c => (decide (a ≤ c) && decide (c ≤ b)) || rangesMatch rest c
  | a :: rest, c => (a == c) || rangesMatch rest c

/-- Split a pattern at the first `]`, returning the class body and the rest. -/
def splitClose : Str → Option (Str × Str)
  | [] => none
  | ']' :: rest => some ([], rest)
  | c :: rest => (splitClose rest).map fun pr => (c :: pr.1, pr.2)

/-- As splitClose, but a leading `]` belongs to the class body
(fnmatch.translate's handling of `[]...]`). -/
def splitCloseLead (q : Str) : Option (Str × Str) :=
  match q with
  | ']' :: q2 => (splitClose q2).map fun pr => (']' :: pr.1, pr.2)
  | _ => splitClose q

/-- fnmatch-style glob matching of a whole name.  The fuel argument bounds
the recursion depth; every recursive call strictly decreases the sum of
the two remaining lengths, so the wrapper's pattern-length + name-length
+ 1 is always enough and the 0 case is unreachable. -/
def globMatchGo : Nat → Str → Str → Bool
  | 0, _, _ => false
  | fuel + 1, pat, s =>
    match pat, s with
    | [], s => s.isEmpty
    | '*' :: p, s =>
        globMatchGo fuel p s ||
          (match s with
           | [] => false
           | _ :: s2 => globMatchGo fuel ('*' :: p) s2)
    | '?' :: p, s =>
        (match s with
         | [] => false
         | _ :: s2 => globMatchGo fuel p s2)
    | '[' :: p, s =>
        (match s with
         | [] => false
         | c :: s2 =>
           match (match p with
                  | '!' :: q => (splitCloseLead q).map fun pr => (true, pr.1, pr.2)
                  | _ => (splitCloseLead p).map fun pr => (false, pr.1, pr.2)) with
           | none => (('[' : Char) == c) && globMatchGo fuel p s2
           | some (neg, content, rest) =>
               (neg != rangesMatch content c) && globMatchGo fuel rest s2)
    | c :: p, s =>
        (match s with
         | [] => false
         | c2 :: s2 => (c == c2) && globMatchGo fuel p s2)

/-- fnmatch.fnmatch of a name against a pattern. -/
def globMatch (pat s : Str) : Bool := globMatchGo (pat.length + s.length + 1) pat s

/-- os.path.basename of a slash-separated path. -/
def basename (p : Str) : Str := (p.reverse.takeWhile fun c => c != '/').reverse

/-- SvnAutoProps.getProps.  `autoPropsIter` is the pattern dictionary in its
iteration order (Python 2 dict iteration order is a function of the key
hashes, not of the order the auto-props file listed the patterns in). -/
def getProps (autoPropsIter : List (Str × SvnProperties)) (filepath : Str) : SvnProperties :=
  match autoPropsIter with
  | [] => EmptyProps
  | (pattern, props) :: rest =>
      if globMatch pattern (basename filepath) then props else getProps rest filepath

/-! ## Reverse line reading (cc2svn.py lines 254-291)

`splitlines` follows Python 2 str.splitlines(False): lines are terminated
by LF, CR, or CRLF, terminators are dropped, and a trailing terminator
does not open a final empty line. -/

def splitlinesAux : List Char → Str → List Str
  | acc, [] => if acc.isEmpty then [] else [acc.reverse]
  | acc, '\r' :: '\n' :: rest => acc.reverse :: splitlinesAux [] rest
  | acc, '\n' :: rest => acc.reverse :: splitlinesAux [] rest
  | acc, '\r' :: rest => acc.reverse :: splitlinesAux [] rest
  | acc, c :: rest => splitlinesAux (c :: acc) rest

/-- Python 2 str.splitlines (keepends = False). -/
def splitlines (s : Str) : List Str := splitlinesAux [] s

/-- rblocks: the file content cut into blocks, yielded from the end of the
file to the start; the first yielded block is the short tail block. -/
def rblocks (content : Str) (blocksize : Nat) : List Str :=
  let fullblocks := content.length / blocksize
  content.drop (fullblocks * blocksize) ::
    ((List.range fullblocks).reverse.map fun i => (content.drop (i * blocksize)).take blocksize)

/-- One iteration of the rlines loop: prepend the block to the buffer,
split, keep the first line as the new buffer, yield the rest reversed. -/
def rlinesStep (st : Str × List Str) (block : Str) : Str × List Str :=
  let buf := block ++ st.1
  match splitlines buf with
  | [] => (buf, st.2)
  | l0 :: rest => (l0, st.2 ++ rest.reverse)

/-- rlines: all lines yielded by the reverse line reader, in the order
yielded (the final `yield buf` included).  `blocksize` is rblocks'
block size parameter (4096 by default in the source). -/
def rlines (content : Str) (blocksize : Nat) : List Str :=
  let st := (rblocks content blocksize).foldl rlinesStep ([], [])
  st.2 ++ [st.1]

/-! ## Converter state, records and configuration (cc2svn.py lines 367-444, 560-615) -/

/-- FileSet: a set of paths plus the root they live under. -/
structure FileSet where
  root : Str
  files : List Str
deriving DecidableEq

/-- set.add: insert a path if absent. -/
def FileSet.add (fs : FileSet) (p : Str) : FileSet :=
  if fs.files.contains p then fs else { fs with files := p :: fs.files }

def FileSet.getAbsolutePath (fs : FileSet) (p : Str) : Str := fs.root ++ "/".data ++ p

def getSvnBranchPath (branch : Str) : Str := "branches/".data ++ branch

def getSvnTagPath (tag : Str) : Str := "tags/".data ++ tag

/-- One parsed ClearCase history record (the fields the replay engine reads). -/
structure CCRecord where
  path : Str
  revision : Str
  operation : Str
  typ : Str
  labels : List Str
  date : Nat
  branchNames : List Str
  revNumber : Str
deriving DecidableEq

/-- The configuration the replay engine consults (config.ini globals, the
read lists, and the interactive answer of askYesNo for the
missing-parent-branch prompt). -/
structure Config where
  labels : Option (List Str)
  branches : Option (List Str)
  ignoredDirectories : Option (List Str)
  dumpSinceDate : Option Nat
  ignoreChildBranchWarning : Bool
  userAnswersYes : Bool
  createBranchesTagsDirs : Bool
deriving DecidableEq

/-- Converter state: the branch/tag tree (svnTree), the visited set
(ccTree), the revision counter, the label check set, and the
WriteStream enabled flag. -/
structure Conv where
  svnTree : List (Str × FileSet)
  ccTree : List (Str × Str)
  svnRevNum : Nat
  checklabels : List Str
  outEnabled : Bool
deriving DecidableEq

/-- svnTree dictionary lookup (svnTree.get). -/
def lookupTree : List (Str × FileSet) → Str → Option FileSet
  | [], _ => none
  | (k, fs) :: rest, key => if k = key then some fs else lookupTree rest key

/-- svnTree dictionary store (svnTree[key] = fs). -/
def updateTree : List (Str × FileSet) → Str → FileSet → List (Str × FileSet)
  | [], key, fs => [(key, fs)]
  | (k, f) :: rest, key, fs =>
      if k = key then (k, fs) :: rest else (k, f) :: updateTree rest key fs

/-- ccTree set insertion. -/
def insertPair (s : List (Str × Str)) (x : Str × Str) : List (Str × Str) :=
  if s.contains x then s else x :: s

/-- checklabels set insertion. -/
def insertStr (s : List Str) (x : Str) : List Str :=
  if s.contains x then s else x :: s

/-- One write decision passed to the dump serializer.  Each constructor
stands for one call site: dumpRevisionHeader, the format-version line,
dumpSvnDir on a literal path, dumpSvnDir on a new branch/tag root,
dumpSvnDir inside createParentDirs or the directory-version case,
dumpSvnCopy with kind "dir", dumpFile "add", dumpFile "change",
and dumpSvnCopy with kind "file" in processLabels. -/
inductive Event where
  | formatVersion
  | revHeader (rev : Nat)
  | plainDirAdd (path : Str)
  | dirRootAdd (tree root : Str)
  | dirAdd (tree dir : Str)
  | dirCopy (parent child : Str) (fromRev : Nat)
  | fileAdd (tree path : Str)
  | fileChange (tree path : Str)
  | fileCopy (fromPath tag path : Str) (fromRev : Nat)
deriving DecidableEq

/-- os.path.dirname on a normalized relative path: drop the last
slash-separated segment; no separator means the empty dirname. -/
def dirname (p : Str) : Str :=
  match p.reverse.dropWhile (fun c => c != '/') with
  | [] => []
  | _ :: t => t.reverse

/-- Converter.createParentDirs: recursively emit and record every missing
ancestor directory of `path` in the file set; `k` is the svnTree key the
file set is stored under (used to tag the emitted events).  The fuel
argument bounds the recursion depth; the wrapper passes the path length,
which is enough because `dirname` strictly shortens a non-empty path, and
when the fuel is 0 the path is empty, so its dirname is empty and the
0 case agrees with the body. -/
def createParentDirsGo : Nat → Str → FileSet → Str → FileSet × List Event
  | 0, _, fs, _ => (fs, [])
  | fuel + 1, k, fs, path =>
    if dirname path = [] then (fs, [])
    else if fs.files.contains (dirname path) then (fs, [])
    else
      let r := createParentDirsGo fuel k fs (dirname path)
      (r.1.add (dirname path), r.2 ++ [Event.dirAdd k (dirname path)])

def createParentDirs (k : Str) (fs : FileSet) (path : Str) : FileSet × List Event :=
  createParentDirsGo path.length k fs path

/-- Converter.dumpRevisionHeader: emit the header with the current counter
value and increment the counter (the increment is unconditional; whether
the bytes reach the output depends on the WriteStream flag). -/
def dumpRevisionHeader (st : Conv) : Conv × Event :=
  ({ st with svnRevNum := st.svnRevNum + 1 }, Event.revHeader st.svnRevNum)

/-- Converter.getTagFileset: the svnTree entry for a label, created (with
its root directory emitted) on first use. -/
def getTagFileset (st : Conv) (label : Str) : FileSet × Conv × List Event :=
  match lookupTree st.svnTree label with
  | some fs => (fs, st, [])
  | none =>
      let fs : FileSet := ⟨getSvnTagPath label, []⟩
      (fs, { st with svnTree := updateTree st.svnTree label fs }, [Event.dirRootAdd label fs.root])

/-- The label allow-list test of processLabels: labels None means all pass. -/
def passesLabel (labels : Option (List Str)) (l : Str) : Bool :=
  match labels with
  | none => true
  | some ls => ls.contains l

/-- The label loop of Converter.processLabels.  `first` is the flag that
makes the loop emit a single revision header before the first allowed
label only. -/
def labelsLoop (cfg : Config) (rpath svnpath : Str) (copyfromRev : Nat) (updateLabels : Bool) :
    List Str → Bool → Conv → Conv × List Event
  | [], _, st => (st, [])
  | l :: ls, first, st =>
    if passesLabel cfg.labels l then
      let hdr : List Event := if first then [Event.revHeader st.svnRevNum] else []
      let st1 := if first then { st with svnRevNum := st.svnRevNum + 1 } else st
      let gtf := getTagFileset st1 l
      let cpd := createParentDirs l gtf.1 rpath
      let st3 := { gtf.2.1 with svnTree := updateTree gtf.2.1.svnTree l cpd.1 }
      let st4 := if cfg.labels = none && updateLabels then
                   { st3 with checklabels := insertStr st3.checklabels l }
                 else st3
      let rest := labelsLoop cfg rpath svnpath copyfromRev updateLabels ls false st4
      (rest.1, hdr ++ gtf.2.2 ++ cpd.2 ++ [Event.fileCopy svnpath l rpath copyfromRev] ++ rest.2)
    else
      labelsLoop cfg rpath svnpath copyfromRev updateLabels ls first st

/-- Converter.processLabels: record the (path, revision) pair in ccTree,
fix copyfromRev = svnRevNum - 1, then run the label loop. -/
def processLabels (cfg : Config) (st : Conv) (r : CCRecord) (svnpath : Str)
    (updateLabels : Bool) : Conv × List Event :=
  let st1 := { st with ccTree := insertPair st.ccTree (r.path, r.revision) }
  labelsLoop cfg r.path svnpath (st1.svnRevNum - 1) updateLabels r.labels true st1

/-- Converter.isIgnored: a configured directory list entry that is a string
prefix of the path (path.startswith). -/
def isIgnored (ignoredDirectories : Option (List Str)) (path : Str) : Bool :=
  match ignoredDirectories with
  | none => false
  | some ds => ds.any fun d => d.isPrefixOf path

/-- ccRecord.svnbranch: the last branch name if the list is non-empty and
its last element truthy, else "unknown" (the `and ... or` idiom). -/
def svnbranchOf (r : CCRecord) : Str :=
  match r.branchNames.getLast? with
  | some b => if b.isEmpty then "unknown".data else b
  | none => "unknown".data

/-- The operations handled for (directory) version records. -/
def isVersionOp (op : Str) : Bool :=
  op == "checkin".data || op == "mkbranch".data || op == "mkelem".data

/-- The branch allow-list filter of Converter.process (line 772). -/
def branchExcluded (branches : Option (List Str)) (b : Str) : Bool :=
  match branches with
  | none => false
  | some bs => !(bs.contains b)

/-- The dump-since-date gate of Converter.process (line 778): enable the
output stream once a record dated after the cutoff arrives. -/
def enableSinceDate (dumpSinceDate : Option Nat) (st : Conv) (date : Nat) : Conv :=
  match dumpSinceDate with
  | some d => if !st.outEnabled && decide (date > d) then { st with outEnabled := true } else st
  | none => st

/-- Converter.process, file-version record, branch already in svnTree
(lines 786-802). -/
def processFileKnown (cfg : Config) (st : Conv) (r : CCRecord) (svnbranch svnpath : Str)
    (fs : FileSet) : Conv × List Event :=
  let h := dumpRevisionHeader st
  if fs.files.contains r.path then
    let pl := processLabels cfg h.1 r svnpath true
    (pl.1, h.2 :: Event.fileChange svnbranch r.path :: pl.2)
  else
    let cpd := createParentDirs svnbranch fs r.path
    let fs2 := cpd.1.add r.path
    let st2 := { h.1 with svnTree := updateTree h.1.svnTree svnbranch fs2 }
    let pl := processLabels cfg st2 r svnpath true
    (pl.1, h.2 :: (cpd.2 ++ Event.fileAdd svnbranch r.path :: pl.2))

/-- The tail of the new-branch case (lines 840-852): given the fresh
branch's file set already stored in svnTree, decide change / add / no-op
(version "0") and process the labels. -/
def processFileNewTail (cfg : Config) (st : Conv) (r : CCRecord) (svnbranch svnpath : Str)
    (newFs : FileSet) : Conv × List Event :=
  if newFs.files.contains r.path then
    if r.revNumber ≠ "0".data then
      let pl := processLabels cfg st r svnpath true
      (pl.1, Event.fileChange svnbranch r.path :: pl.2)
    else
      processLabels cfg st r svnpath true
  else
    let cpd := createParentDirs svnbranch newFs r.path
    let fs2 := cpd.1.add r.path
    let st2 := { st with svnTree := updateTree st.svnTree svnbranch fs2 }
    let pl := processLabels cfg st2 r svnpath true
    (pl.1, cpd.2 ++ Event.fileAdd svnbranch r.path :: pl.2)

/-- Converter.process, file-version record, branch not yet in svnTree
(lines 803-853).  The halt flag models sys.exit(1) on a missing parent
branch that the operator refuses to tolerate.  Note the source tests the
parent file set with `if parentBranchFileSet:` - Python truthiness, so a
present but empty parent set also takes the error path. -/
def processFileNew (cfg : Config) (st : Conv) (r : CCRecord) (svnbranch svnpath : Str) :
    Conv × List Event × Bool :=
  let copyfromRev := st.svnRevNum - 1
  let h := dumpRevisionHeader st
  if r.branchNames.length < 2 then
    let newFs : FileSet := ⟨getSvnBranchPath svnbranch, []⟩
    let st2 := { h.1 with svnTree := updateTree h.1.svnTree svnbranch newFs }
    let tl := processFileNewTail cfg st2 r svnbranch svnpath newFs
    (tl.1, h.2 :: Event.dirRootAdd svnbranch newFs.root :: tl.2, false)
  else
    let parent := (r.branchNames.dropLast).getLast?.getD []
    match lookupTree h.1.svnTree parent with
    | some pfs =>
      if pfs.files.isEmpty then
        if cfg.ignoreChildBranchWarning || cfg.userAnswersYes then
          let newFs : FileSet := ⟨getSvnBranchPath svnbranch, []⟩
          let st2 := { h.1 with svnTree := updateTree h.1.svnTree svnbranch newFs }
          let tl := processFileNewTail cfg st2 r svnbranch svnpath newFs
          (tl.1, h.2 :: Event.dirRootAdd svnbranch newFs.root :: tl.2, false)
        else (h.1, [h.2], true)
      else
        let newFs : FileSet := ⟨getSvnBranchPath svnbranch, pfs.files⟩
        let st2 := { h.1 with svnTree := updateTree h.1.svnTree svnbranch newFs }
        let tl := processFileNewTail cfg st2 r svnbranch svnpath newFs
        (tl.1, h.2 :: Event.dirCopy parent svnbranch copyfromRev :: tl.2, false)
    | none =>
      if cfg.ignoreChildBranchWarning || cfg.userAnswersYes then
        let newFs : FileSet := ⟨getSvnBranchPath svnbranch, []⟩
        let st2 := { h.1 with svnTree := updateTree h.1.svnTree svnbranch newFs }
        let tl := processFileNewTail cfg st2 r svnbranch svnpath newFs
        (tl.1, h.2 :: Event.dirRootAdd svnbranch newFs.root :: tl.2, false)
      else (h.1, [h.2], true)

/-- Converter.process, directory-version record (lines 856-881).  The
source tests the branch file set with `if branchFileSet:` - truthiness,
so a known branch with an empty file set is treated as unknown. -/
def processDirVersion (cfg : Config) (st : Conv) (r : CCRecord) (svnbranch : Str) :
    Conv × List Event :=
  match lookupTree st.svnTree svnbranch with
  | some fs =>
    if fs.files.isEmpty then (st, [])
    else if fs.files.contains r.path then
      ({ st with ccTree := insertPair st.ccTree (r.path, r.revision) }, [])
    else
      let h := dumpRevisionHeader st
      let cpd := createParentDirs svnbranch fs r.path
      let fs2 := cpd.1.add r.path
      let st2 := { h.1 with
                   svnTree := updateTree h.1.svnTree svnbranch fs2
                   ccTree := insertPair h.1.ccTree (r.path, r.revision) }
      (st2, h.2 :: (cpd.2 ++ [Event.dirAdd svnbranch r.path]))
  | none => (st, [])

/-- Converter.process.  Returns the new state, the write decisions of this
record, and a halt flag (true when the source raises: sys.exit on a
refused missing parent, or the NameError on the undefined
PUT_CCLINKS_TO_BRANCH global which any mkslink record triggers). -/
def process (cfg : Config) (st : Conv) (r : CCRecord) : Conv × List Event × Bool :=
  if r.path = ".".data then (st, [], false)
  else
    let svnbranch := svnbranchOf r
    let svnpath := getSvnBranchPath svnbranch ++ "/".data ++ r.path
    if branchExcluded cfg.branches svnbranch then (st, [], false)
    else if isIgnored cfg.ignoredDirectories r.path then (st, [], false)
    else
      let st := enableSinceDate cfg.dumpSinceDate st r.date
      if r.typ = "version".data ∧ isVersionOp r.operation then
        match lookupTree st.svnTree svnbranch with
        | some fs =>
            let p := processFileKnown cfg st r svnbranch svnpath fs
            (p.1, p.2, false)
        | none => processFileNew cfg st r svnbranch svnpath
      else if r.typ = "directory version".data ∧ isVersionOp r.operation then
        let p := processDirVersion cfg st r svnbranch
        (p.1, p.2, false)
      else if r.typ = "symbolic link".data ∧ r.operation = "mkslink".data then
        (st, [], true)
      else (st, [], false)

/-- Converter.__init__ followed by Converter.initializeFile: the initial
state and the initial tagged writes (each event is tagged with the
WriteStream enabled flag at the moment it is written). -/
def initializeFile (cfg : Config) : Conv × List (Bool × Event) :=
  let st0 : Conv := ⟨[], [], 1, cfg.labels.getD [], true⟩
  let st1 := if cfg.dumpSinceDate.isSome then { st0 with outEnabled := false } else st0
  if cfg.createBranchesTagsDirs then
    let h := dumpRevisionHeader st1
    (h.1, [(true, Event.formatVersion), (st1.outEnabled, h.2),
           (st1.outEnabled, Event.plainDirAdd (getSvnBranchPath [])),
           (st1.outEnabled, Event.plainDirAdd (getSvnTagPath []))])
  else (st1, [(true, Event.formatVersion)])

/-- The replay loop of main: process each record oldest-first, tagging
each record's writes with the enabled flag, stopping on a halt. -/
def replay (cfg : Config) : Conv → List CCRecord → Conv × List (Bool × Event)
  | st, [] => (st, [])
  | st, r :: rs =>
    let p := process cfg st r
    let tev := p.2.1.map fun e => (p.1.outEnabled, e)
    if p.2.2 then (p.1, tev)
    else
      let rest := replay cfg p.1 rs
      (rest.1, tev ++ rest.2)

/-- The events of a tagged trace that actually reach the dump stream. -/
def writtenEvents (l : List (Bool × Event)) : List Event :=
  l.filterMap fun be => if be.1 then some be.2 else none

/-- The revision number of the first revision header in a trace. -/
def firstRevHeaderNum (l : List Event) : Option Nat :=
  l.findSome? fun e => match e with | .revHeader n => some n | _ => none

/-! ## Run-state persistence (cc2svn.py lines 652-665)

saveState writes "SvnRevNum:" + self.svnRevNum + "\n" as its first line.
self.svnRevNum is an integer; Python 2 string concatenation with an
integer raises TypeError, modelled by `pyAdd` returning none. -/

inductive PyVal where
  | pstr (s : Str)
  | pint (n : Nat)
deriving DecidableEq

/-- Python 2 `+` restricted to the operand kinds saveState uses: defined
on two strings, a TypeError (none) on a string and an integer. -/
def pyAdd : PyVal → PyVal → Option PyVal
  | .pstr a, .pstr b => some (.pstr (a ++ b))
  | _, _ => none

/-- Converter.saveState: the bytes it would write to the run-state file,
or none when it raises.  The first write evaluates
("SvnRevNum:" + self.svnRevNum) + "\n"; the later lines are plain string
concatenations (key + "|" + value.root + "\n" per svnTree entry, then
path + "|" + revision + "\n" per ccTree pair). -/
def saveState (st : Conv) : Option Str :=
  match pyAdd (.pstr "SvnRevNum:".data) (.pint st.svnRevNum) with
  | none => none
  | some line0 =>
    match pyAdd line0 (.pstr "\n".data) with
    | none => none
    | some (.pint _) => none
    | some (.pstr l1) =>
        some (l1 ++ "svnTree:\n".data ++
          (st.svnTree.map fun kv => kv.1 ++ "|".data ++ kv.2.root ++ "\n".data).join ++
          "ccTree:\n".data ++
          (st.ccTree.map fun pr => pr.1 ++ "|".data ++ pr.2 ++ "\n".data).join)

/-! ## The add-before-change trace invariant (claim C6) -/

/-- Is the event a dumpFile node (a file add or a file change)? -/
def isDumpFileNode : Event → Bool
  | .fileAdd _ _ => true
  | .fileChange _ _ => true
  | _ => false

def isRevHeaderEv : Event → Bool
  | .revHeader _ => true
  | _ => false

def isChangeEv : Event → Bool
  | .fileChange _ _ => true
  | _ => false

/-- The (tree, path) pairs a trace has added so far: file adds and
directory adds directly, and for a branch created by a directory copy
every path the parent tree had at the moment of the copy. -/
def addedStep (acc : List (Str × Str)) : Event → List (Str × Str)
  | .fileAdd t p => (t, p) :: acc
  | .dirAdd t p => (t, p) :: acc
  | .dirCopy parent child _ =>
      (acc.filterMap fun x => if x.1 = parent then some (child, x.2) else none) ++ acc
  | _ => acc

def addedPaths (tr : List Event) : List (Str × Str) := tr.foldl addedStep []

/-- Every file-change event in the second trace is covered by an add
already present in the first trace extended with the events before it. -/
def changesCoveredFrom : List Event → List Event → Bool
  | _, [] => true
  | tr, e :: rest =>
    (match e with
     | .fileChange t p => (addedPaths tr).contains (t, p)
     | _ => true) && changesCoveredFrom (tr ++ [e]) rest

/-- Every path of every file set of the tree is covered by an add in the
trace. -/
def TreeCovered (tr : List Event) (st : Conv) : Prop :=
  ∀ k fs, lookupTree st.svnTree k = some fs → ∀ p ∈ fs.files, (k, p) ∈ addedPaths tr

/-- The length invariant of a property set: the running total is the
PROPS-END tail plus the serialized length of every entry. -/
def PropsLenOk (p : SvnProperties) : Prop := p.totalLen = 10 + sumLens p.keyset

/-! ## Concrete scenario inputs used by counterexamples and witnesses -/

/-- A configuration with no allow-lists, no ignore list and no date cutoff. -/
def cfgPlain : Config := ⟨none, none, none, none, false, false, false⟩

/-- A converter state that already knows branch dev with file f.c in it. -/
def stKnownDev : Conv :=
  ⟨[("dev".data, ⟨"branches/dev".data, ["f.c".data]⟩)], [], 5, [], true⟩

/-- A version-0 check-in record of f.c on branch /main/dev. -/
def recV0 : CCRecord :=
  ⟨"f.c".data, "/main/dev/0".data, "checkin".data, "version".data, [], 0,
   ["main".data, "dev".data], "0".data⟩

/-- A state that knows only the parent branch main, with f.c in it. -/
def stParentMain : Conv :=
  ⟨[("main".data, ⟨"branches/main".data, ["f.c".data]⟩)], [], 5, [], true⟩

/-- A record carrying two labels. -/
def recTwoLabels : CCRecord := { recV0 with
  labels := ["L1".data, "L2".data]
  revNumber := "1".data }

/-- A configuration whose ignored-directory list holds the prefix tmp. -/
def cfgIgnoreTmp : Config := ⟨none, none, some ["tmp".data], none, false, false, false⟩

/-- A record whose path falls under the ignored prefix. -/
def recUnderTmp : CCRecord := { recV0 with path := "tmp/x.c".data }

/-- Two distinguishable property sets for the auto-props scenarios. -/
def propsA : SvnProperties := SvnProperties.init.set "k".data "a".data

def propsB : SvnProperties := SvnProperties.init.set "k".data "b".data

/-- The auto-props mapping in the order the file listed it: the catch-all
pattern first, the more specific pattern second. -/
def autoPropsFileOrder : List (Str × SvnProperties) :=
  [("*".data, propsA), ("*.c".data, propsB)]

/-- The same mapping in the other iteration order the dictionary may use. -/
def autoPropsDictOrder : List (Str × SvnProperties) :=
  [("*.c".data, propsB), ("*".data, propsA)]

/-- A configuration with a dump-since-date cutoff of 100. -/
def cfgSince100 : Config := ⟨none, none, none, some 100, false, false, false⟩

/-- A check-in of a.c on /main dated before the cutoff. -/
def recBeforeCutoff : CCRecord :=
  ⟨"a.c".data, "/main/1".data, "checkin".data, "version".data, [], 50,
   ["main".data], "1".data⟩

/-- A second check-in of a.c dated after the cutoff. -/
def recAfterCutoff : CCRecord := { recBeforeCutoff with
  revision := "/main/2".data
  date := 200
  revNumber := "2".data }

/-! # Theorems -/

/-! ## Property-block length bookkeeping (claims C3, C4) -/

theorem propEntry_length (k v : Str) : (propEntry k v).length = calcPropLength k v := by
  by_cases h : v.isEmpty
  · have hv : v = [] := by simpa [List.isEmpty_iff] using h
    simp [propEntry, calcPropLength, h, hv]
    omega
  · simp [propEntry, calcPropLength, h]
    omega

theorem entries_length (ks : List (Str × Str)) :
    ((ks.map fun kv => propEntry kv.1 kv.2).join).length
      = (ks.map fun kv => calcPropLength kv.1 kv.2).sum := by
  induction ks with
  | nil => simp
  | cons kv rest ih => simp [ih, propEntry_length]

theorem sumLens_eq_natSum (ks : List (Str × Str)) :
    sumLens ks = ((ks.map fun kv => calcPropLength kv.1 kv.2).sum : Int) := by
  induction ks with
  | nil => simp [sumLens]
  | cons kv rest ih => simp [sumLens, List.map_cons, List.sum_cons] at ih ⊢; omega

theorem writeContent_length (p : SvnProperties) :
    (p.writeContent.length : Int) = sumLens p.keyset + 10 := by
  have h10 : ("PROPS-END\n".data).length = 10 := by decide
  have hn : p.writeContent.length = (p.keyset.map fun kv => calcPropLength kv.1 kv.2).sum + 10 := by
    simp only [SvnProperties.writeContent, List.length_append, entries_length, h10]
  rw [hn, sumLens_eq_natSum]
  push_cast
  ring

theorem sumLens_setKV (ks : List (Str × Str)) (k v old : Str)
    (h : lookupKV ks k = some old) :
    sumLens (setKV ks k v) = sumLens ks - (calcPropLength k old : Int) + calcPropLength k v := by
  induction ks with
  | nil => simp [lookupKV] at h
  | cons kv rest ih =>
      by_cases hk : kv.1 = k
      · have : kv.2 = old := by
          simp [lookupKV, hk] at h; exact h
        subst this
        simp [setKV, hk, sumLens, List.map_cons, List.sum_cons]
        omega
      · have h2 : lookupKV rest k = some old := by
          simpa [lookupKV, hk] using h
        have := ih h2
        simp [setKV, hk, sumLens, List.map_cons, List.sum_cons] at this ⊢
        omega

theorem propsLenOk_init : PropsLenOk SvnProperties.init := by
  simp [PropsLenOk, SvnProperties.init, sumLens]

theorem propsLenOk_set (p : SvnProperties) (k v : Str) (h : PropsLenOk p) :
    PropsLenOk (p.set k v) := by
  unfold SvnProperties.set
  cases hl : lookupKV p.keyset k with
  | none =>
      simp [PropsLenOk, sumLens, List.map_append, List.sum_append] at h ⊢
      omega
  | some old =>
      have hs := sumLens_setKV p.keyset k v old hl
      simp [PropsLenOk] at h ⊢
      rw [hs, h]
      ring

theorem propsLenOk_applyOp (p : SvnProperties) (op : PropOp) (h : PropsLenOk p) :
    PropsLenOk (applyPropOp p op) := by
  cases op with
  | set k v => exact propsLenOk_set p k v h
  | reset => exact propsLenOk_init

theorem propsLenOk_foldl (ops : List PropOp) :
    ∀ p, PropsLenOk p → PropsLenOk (ops.foldl applyPropOp p) := by
  induction ops with
  | nil => intro p h; simpa using h
  | cons op rest ih =>
      intro p h
      exact ih _ (propsLenOk_applyOp p op h)

theorem propsLenOk_applyPropOps (ops : List PropOp) : PropsLenOk (applyPropOps ops) :=
  propsLenOk_foldl ops _ propsLenOk_init

/-- C3: for every sequence of set/reset operations on a fresh property
set, the running total written in the Prop-content-length header equals
the number of bytes writeContent then writes for the key/value block,
PROPS-END line included. -/
theorem c3_theorem (ops : List PropOp) :
    (applyPropOps ops).totalLen = ((applyPropOps ops).writeContent.length : Int) := by
  have h := propsLenOk_applyPropOps ops
  rw [writeContent_length]
  simp [PropsLenOk] at h
  omega

theorem chunkedLengthGo_eq (fuel : Nat) :
    ∀ content : Str, content.length ≤ fuel → chunkedLengthGo fuel content = content.length := by
  induction fuel with
  | zero =>
      intro content h
      have : content = [] := List.length_eq_zero.mp (Nat.le_zero.mp h)
      simp [this, chunkedLengthGo]
  | succ fuel ih =>
      intro content h
      by_cases hc : content = []
      · simp [hc, chunkedLengthGo]
      · have hpos : 0 < content.length := List.length_pos.mpr hc
        have hdrop : (content.drop FILEREAD_CHUNKSIZE).length ≤ fuel := by
          simp [List.length_drop]
          have : 0 < FILEREAD_CHUNKSIZE := by norm_num [FILEREAD_CHUNKSIZE]
          omega
        have := ih (content.drop FILEREAD_CHUNKSIZE) hdrop
        simp [chunkedLengthGo, hc, this, List.length_take, List.length_drop]
        have : 0 < FILEREAD_CHUNKSIZE := by norm_num [FILEREAD_CHUNKSIZE]
        omega

theorem chunkedLength_eq (content : Str) : chunkedLength content = content.length :=
  chunkedLengthGo_eq content.length content le_rfl

/-- C4: for every dumped file node, the figure written in the
Content-length header is the measured (chunk-streamed) content byte count
plus the property block's serialized length: it equals the true content
length plus the true byte length of the property block, for a property
set built by any operation sequence and content of any size. -/
theorem c4_theorem (ops : List PropOp) (content : Str) :
    contentLengthValue (applyPropOps ops) content
        = (content.length : Int) + ((applyPropOps ops).writeContent.length : Int)
      ∧ chunkedLength content = content.length := by
  constructor
  · have h := propsLenOk_applyPropOps ops
    simp [PropsLenOk] at h
    rw [contentLengthValue, chunkedLength_eq, writeContent_length]
    omega
  · exact chunkedLength_eq content

/-! ## Reverse line reading (claim C5)

The reverse reader is expected to yield exactly the forward lines in
reverse order.  It does not: when the last block of the file consists of
a line terminator that ends an empty final line, the empty line is lost.
With rblocks' block size 2 the three-byte file "x\n\n" shows it;
the default block size 4096 shows the same on a 4097-byte file ending in
a newline-terminated empty line. -/

/-- C5: at the concrete input "x\n\n" with block size 2, the reverse line
reader yields ["x"], while forward line splitting yields ["x", ""] - so
re-reversing the reader's output does not reproduce the forward sequence:
the trailing empty line is dropped. -/
theorem c5_theorem :
    rlines "x\n\n".data 2 = ["x".data] ∧
    (splitlines "x\n\n".data).reverse = [[], "x".data] ∧
    rlines "x\n\n".data 2 ≠ (splitlines "x\n\n".data).reverse := by
  refine ⟨by decide, by decide, by decide⟩

/-! ## Run-state persistence (claim C8) -/

/-- C8: the run-state save operation never succeeds: its first write
concatenates the string "SvnRevNum:" with the integer revision counter,
which raises TypeError in Python 2, so no converter state is ever
serialized to the recovery file. -/
theorem c8_theorem (st : Conv) : saveState st = none := rfl

/-! ## Auto-props lookup (claim C9) -/

theorem getProps_no_match (order : List (Str × SvnProperties)) (fp : Str)
    (h : ∀ pe ∈ order, globMatch pe.1 (basename fp) = false) :
    getProps order fp = EmptyProps := by
  induction order with
  | nil => rfl
  | cons q rest ih =>
      obtain ⟨qpat, qprops⟩ := q
      have hq := h (qpat, qprops) (List.mem_cons_self _ _)
      simp only [getProps, hq, Bool.false_eq_true, if_false]
      exact ih fun pe hpe => h pe (List.mem_cons_of_mem _ hpe)

theorem getProps_unique_match (order : List (Str × SvnProperties)) (fp : Str)
    (pe : Str × SvnProperties) (hmem : pe ∈ order)
    (hmatch : globMatch pe.1 (basename fp) = true)
    (huniq : ∀ pe2 ∈ order, globMatch pe2.1 (basename fp) = true → pe2 = pe) :
    getProps order fp = pe.2 := by
  induction order with
  | nil => simp at hmem
  | cons q rest ih =>
      obtain ⟨qpat, qprops⟩ := q
      by_cases hq : globMatch qpat (basename fp) = true
      · have heq : (qpat, qprops) = pe := huniq _ (List.mem_cons_self _ _) hq
        simp only [getProps, hq, if_true]
        exact congrArg Prod.snd heq
      · rcases List.mem_cons.mp hmem with heq | hrest
        · subst heq; exact absurd hmatch hq
        · simp only [getProps, hq, Bool.false_eq_true, if_false]
          exact ih hrest fun pe2 h2 hm2 => huniq pe2 (List.mem_cons_of_mem _ h2) hm2

/-- C9 (amended): the property set returned for a file is decided by the
first matching pattern in the dictionary's iteration order, which need
not be the order of the mapping file; consequently the result is only
determined by the file when at most one pattern matches: a file matching
no pattern receives the shared empty property set, and a file matched by
exactly one pattern receives that pattern's property set, under every
iteration order. -/
theorem c9_theorem :
    (∀ (order : List (Str × SvnProperties)) (fp : Str),
        (∀ pe ∈ order, globMatch pe.1 (basename fp) = false) →
        getProps order fp = EmptyProps) ∧
    (∀ (order : List (Str × SvnProperties)) (fp : Str) (pe : Str × SvnProperties),
        pe ∈ order → globMatch pe.1 (basename fp) = true →
        (∀ pe2 ∈ order, globMatch pe2.1 (basename fp) = true → pe2 = pe) →
        getProps order fp = pe.2) :=
  ⟨getProps_no_match, getProps_unique_match⟩

/-- C9 counterexample: the two orders are permutations of each other (the
same dictionary content), the name x.c matches both patterns, and the
property set returned under the one iteration order differs from the one
the mapping-file order would give - so the first pattern *of the file*
does not determine the result. -/
theorem c9_counterexample :
    autoPropsDictOrder.Perm autoPropsFileOrder ∧
    getProps autoPropsFileOrder "x.c".data = propsA ∧
    getProps autoPropsDictOrder "x.c".data = propsB ∧
    propsB ≠ propsA := by
  refine ⟨?_, by decide, by decide, by decide⟩
  simp only [autoPropsDictOrder, autoPropsFileOrder]
  exact List.Perm.swap _ _ _

theorem c9_witness :
    getProps [("*.c".data, propsB)] "x.c".data = propsB ∧
    getProps [] "y".data = EmptyProps := by
  constructor
  · exact c9_theorem.2 [("*.c".data, propsB)] "x.c".data ("*.c".data, propsB)
      (List.mem_singleton.mpr rfl) (by decide)
      (fun pe2 h2 _ => List.mem_singleton.mp h2)
  · exact c9_theorem.1 [] "y".data fun pe h => absurd h (List.not_mem_nil pe)

/-! ## Record filtering (claim C7) -/

/-- C7: a record whose path is the repository root, whose derived branch
the branch allow-list excludes, or whose path an ignored-directory prefix
matches, is dropped before any state mutation: the converter state is
returned unchanged and nothing is written. -/
theorem c7_theorem (cfg : Config) (st : Conv) (r : CCRecord)
    (h : r.path = ".".data ∨ branchExcluded cfg.branches (svnbranchOf r) = true ∨
         isIgnored cfg.ignoredDirectories r.path = true) :
    process cfg st r = (st, [], false) := by
  unfold process
  rcases h with h | h | h
  · simp [h]
  · by_cases hp : r.path = ".".data
    · simp [hp]
    · simp [hp, h]
  · by_cases hp : r.path = ".".data
    · simp [hp]
    · by_cases hb : branchExcluded cfg.branches (svnbranchOf r) = true
      · simp [hp, hb]
      · simp [hp, hb, h]

theorem c7_witness : process cfgIgnoreTmp stKnownDev recUnderTmp = (stKnownDev, [], false) :=
  c7_theorem cfgIgnoreTmp stKnownDev recUnderTmp (Or.inr (Or.inr (by decide)))

/-! ## Events emitted by the label loop (claims C1, C2) -/

theorem createParentDirsGo_events (fuel : Nat) :
    ∀ (k : Str) (fs : FileSet) (path : Str) (e : Event),
      e ∈ (createParentDirsGo fuel k fs path).2 → ∃ d, e = Event.dirAdd k d := by
  induction fuel with
  | zero => intro k fs path e he; simp [createParentDirsGo] at he
  | succ fuel ih =>
      intro k fs path e he
      simp only [createParentDirsGo] at he
      split at he
      · simp at he
      · split at he
        · simp at he
        · simp only [List.mem_append, List.mem_singleton] at he
          rcases he with he | he
          · exact ih k fs (dirname path) e he
          · exact ⟨dirname path, he⟩

theorem createParentDirs_events (k : Str) (fs : FileSet) (path : Str) (e : Event)
    (he : e ∈ (createParentDirs k fs path).2) : ∃ d, e = Event.dirAdd k d :=
  createParentDirsGo_events path.length k fs path e he

theorem getTagFileset_events (st : Conv) (l : Str) (e : Event)
    (he : e ∈ (getTagFileset st l).2.2) : e = Event.dirRootAdd l (getSvnTagPath l) := by
  unfold getTagFileset at he
  cases hl : lookupTree st.svnTree l with
  | some fs => rw [hl] at he; simp at he
  | none => rw [hl] at he; simpa using he

theorem labelsLoop_events (cfg : Config) (rpath svnpath : Str) (cfr : Nat) (ul : Bool) :
    ∀ (ls : List Str) (first : Bool) (st : Conv) (e : Event),
      e ∈ (labelsLoop cfg rpath svnpath cfr ul ls first st).2 →
      isDumpFileNode e = false := by
  intro ls
  induction ls with
  | nil => intro first st e he; simp [labelsLoop] at he
  | cons l ls ih =>
      intro first st e he
      by_cases hp : passesLabel cfg.labels l = true
      · simp only [labelsLoop, hp, if_true, List.mem_append, List.mem_singleton] at he
        rcases he with (((hh | ht) | hc) | hcp) | hr
        · split at hh
          · simp at hh; rw [hh]; rfl
          · simp at hh
        · rw [getTagFileset_events _ _ _ ht]; rfl
        · obtain ⟨d, rfl⟩ := createParentDirs_events _ _ _ _ hc; rfl
        · rw [hcp]; rfl
        · exact ih _ _ _ hr
      · simp only [labelsLoop, hp, Bool.false_eq_true, if_false] at he
        exact ih _ _ _ he

theorem processLabels_events (cfg : Config) (st : Conv) (r : CCRecord) (svnpath : Str)
    (ul : Bool) (e : Event) (he : e ∈ (processLabels cfg st r svnpath ul).2) :
    isDumpFileNode e = false := by
  unfold processLabels at he
  exact labelsLoop_events cfg r.path svnpath _ ul r.labels true _ e he

theorem getTagFileset_revHeader_count (st : Conv) (l : Str) :
    ((getTagFileset st l).2.2).countP isRevHeaderEv = 0 := by
  unfold getTagFileset
  cases hl : lookupTree st.svnTree l <;> simp [isRevHeaderEv]

theorem createParentDirs_revHeader_count (k : Str) (fs : FileSet) (path : Str) :
    ((createParentDirs k fs path).2).countP isRevHeaderEv = 0 := by
  apply List.countP_eq_zero.mpr
  intro e he
  obtain ⟨d, rfl⟩ := createParentDirs_events _ _ _ _ he
  simp [isRevHeaderEv]

theorem labelsLoop_revHeader_count (cfg : Config) (rpath svnpath : Str) (cfr : Nat) (ul : Bool) :
    ∀ (ls : List Str) (first : Bool) (st : Conv),
      ((labelsLoop cfg rpath svnpath cfr ul ls first st).2).countP isRevHeaderEv
        = if first && ls.any (passesLabel cfg.labels) then 1 else 0 := by
  intro ls
  induction ls with
  | nil => intro first st; simp [labelsLoop]
  | cons l ls ih =>
      intro first st
      by_cases hp : passesLabel cfg.labels l = true
      · simp only [labelsLoop, hp, if_true, List.countP_append, ih,
          createParentDirs_revHeader_count, getTagFileset_revHeader_count]
        rcases first with _ | _ <;> simp [isRevHeaderEv, hp]
      · simp only [labelsLoop, hp, Bool.false_eq_true, if_false, ih, List.any_cons]
        rcases first with _ | _ <;> simp [hp]

theorem labelsLoop_copy_mem (cfg : Config) (rpath svnpath : Str) (cfr : Nat) (ul : Bool) :
    ∀ (ls : List Str) (first : Bool) (st : Conv) (l : Str),
      l ∈ ls → passesLabel cfg.labels l = true →
      Event.fileCopy svnpath l rpath cfr ∈ (labelsLoop cfg rpath svnpath cfr ul ls first st).2 := by
  intro ls
  induction ls with
  | nil => intro first st l hl; simp at hl
  | cons a ls ih =>
      intro first st l hl hp
      rcases List.mem_cons.mp hl with heq | hrest
      · subst heq
        simp only [labelsLoop, hp, if_true, List.mem_append, List.mem_singleton]
        exact Or.inl (Or.inr trivial)
      · by_cases ha : passesLabel cfg.labels a = true
        · simp only [labelsLoop, ha, if_true, List.mem_append, List.mem_singleton]
          exact Or.inr (ih false _ l hrest hp)
        · simp only [labelsLoop, ha, Bool.false_eq_true, if_false]
          exact ih first st l hrest hp

/-- C2 (amended): a record with at least one allow-listed label triggers,
after the primary node write, exactly one additional revision shared by
all its allow-listed labels; that revision contains, for each such label,
the copy operation from the branch-side path into the label's tag root,
copying from the revision preceding the label revision. -/
theorem c2_theorem (cfg : Config) (st : Conv) (r : CCRecord) (svnpath : Str) (l : Str)
    (hl : l ∈ r.labels) (hp : passesLabel cfg.labels l = true) :
    ((processLabels cfg st r svnpath true).2).countP isRevHeaderEv = 1 ∧
    Event.fileCopy svnpath l r.path (st.svnRevNum - 1) ∈
      (processLabels cfg st r svnpath true).2 := by
  constructor
  · unfold processLabels
    rw [labelsLoop_revHeader_count]
    have hany : r.labels.any (passesLabel cfg.labels) = true :=
      List.any_eq_true.mpr ⟨l, hl, hp⟩
    simp [hany]
  · unfold processLabels
    exact labelsLoop_copy_mem cfg r.path svnpath _ true r.labels true _ l hl hp

/-- C2 counterexample: a record with two distinct allow-listed labels, both
tag roots touched (both created) by its label processing, yet only one
revision header is emitted for them - not one per label as claimed. -/
theorem c2_counterexample :
    recTwoLabels.labels.length = 2 ∧
    Event.dirRootAdd "L1".data "tags/L1".data ∈
      (processLabels cfgPlain stKnownDev recTwoLabels ("branches/dev/f.c".data) true).2 ∧
    Event.dirRootAdd "L2".data "tags/L2".data ∈
      (processLabels cfgPlain stKnownDev recTwoLabels ("branches/dev/f.c".data) true).2 ∧
    ((processLabels cfgPlain stKnownDev recTwoLabels ("branches/dev/f.c".data) true).2).countP
        isRevHeaderEv = 1 ∧
    ¬ ((processLabels cfgPlain stKnownDev recTwoLabels ("branches/dev/f.c".data) true).2).countP
        isRevHeaderEv = 2 := by
  refine ⟨by decide, by decide, by decide, by decide, by decide⟩

theorem c2_witness :
    ((processLabels cfgPlain stKnownDev recTwoLabels ("branches/dev/f.c".data) true).2).countP
        isRevHeaderEv = 1 ∧
    Event.fileCopy ("branches/dev/f.c".data) "L1".data recTwoLabels.path
        (stKnownDev.svnRevNum - 1) ∈
      (processLabels cfgPlain stKnownDev recTwoLabels ("branches/dev/f.c".data) true).2 :=
  c2_theorem cfgPlain stKnownDev recTwoLabels ("branches/dev/f.c".data) "L1".data
    (by decide) (by decide)

/-! ## The version-0 no-op rule (claim C1) -/

theorem enableSinceDate_svnTree (d : Option Nat) (st : Conv) (x : Nat) :
    (enableSinceDate d st x).svnTree = st.svnTree := by
  unfold enableSinceDate
  cases d with
  | none => rfl
  | some v => dsimp only; split <;> rfl

theorem processLabels_fileNode_count (cfg : Config) (st : Conv) (r : CCRecord)
    (svnpath : Str) (ul : Bool) :
    ((processLabels cfg st r svnpath ul).2).countP isDumpFileNode = 0 := by
  apply List.countP_eq_zero.mpr
  intro e he
  simp [processLabels_events cfg st r svnpath ul e he]

theorem processFileNewTail_v0 (cfg : Config) (st : Conv) (r : CCRecord)
    (svnbranch svnpath : Str) (newFs : FileSet)
    (hmem : newFs.files.contains r.path = true) (hrev : r.revNumber = "0".data) :
    ((processFileNewTail cfg st r svnbranch svnpath newFs).2).countP isDumpFileNode = 0 := by
  unfold processFileNewTail
  rw [if_pos hmem]
  rw [if_neg (by simp [hrev])]
  exact processLabels_fileNode_count cfg st r svnpath true

theorem processFileNew_v0_count (cfg : Config) (st : Conv) (r : CCRecord)
    (svnbranch svnpath : Str) (pfs : FileSet)
    (hlen : ¬ r.branchNames.length < 2)
    (hpar : lookupTree st.svnTree ((r.branchNames.dropLast).getLast?.getD []) = some pfs)
    (hne : pfs.files.isEmpty = false)
    (hmem : pfs.files.contains r.path = true)
    (hrev : r.revNumber = "0".data) :
    ((processFileNew cfg st r svnbranch svnpath).2.1).countP isDumpFileNode = 0 := by
  unfold processFileNew
  rw [if_neg hlen]
  simp only [dumpRevisionHeader, hpar, hne, Bool.false_eq_true, if_false,
    List.countP_cons]
  have ht := processFileNewTail_v0 cfg
    { svnTree := updateTree st.svnTree svnbranch ⟨getSvnBranchPath svnbranch, pfs.files⟩
      ccTree := st.ccTree
      svnRevNum := st.svnRevNum + 1
      checklabels := st.checklabels
      outEnabled := st.outEnabled }
    r svnbranch svnpath ⟨getSvnBranchPath svnbranch, pfs.files⟩ hmem hrev
  simp only [isDumpFileNode] at ht ⊢
  rw [ht]
  simp

/-- C1 (amended): the freshly-branched no-op applies to the new-branch
path, not the known-branch path: when a file-version record creates its
branch as a copy of a known, non-empty parent branch whose file set
already holds the path, and the record's derived version number is "0",
no file node (no add, no change) is written for the record - only the
revision header, the branch-creating copy node, and any label copies.
(When the branch was already known and the path present, a change node is
written regardless of the version number - see the counterexample.) -/
theorem c1_theorem (cfg : Config) (st : Conv) (r : CCRecord) (pfs : FileSet)
    (hdot : ¬ r.path = ".".data)
    (hbr : branchExcluded cfg.branches (svnbranchOf r) = false)
    (hig : isIgnored cfg.ignoredDirectories r.path = false)
    (htyp : r.typ = "version".data)
    (hop : isVersionOp r.operation = true)
    (hnew : lookupTree st.svnTree (svnbranchOf r) = none)
    (hlen : ¬ r.branchNames.length < 2)
    (hpar : lookupTree st.svnTree ((r.branchNames.dropLast).getLast?.getD []) = some pfs)
    (hne : pfs.files.isEmpty = false)
    (hmem : pfs.files.contains r.path = true)
    (hrev : r.revNumber = "0".data) :
    ((process cfg st r).2.1).countP isDumpFileNode = 0 := by
  have hsvn := enableSinceDate_svnTree cfg.dumpSinceDate st r.date
  unfold process
  rw [if_neg hdot]
  simp only [hbr, hig, Bool.false_eq_true, if_false]
  rw [if_pos (And.intro htyp hop)]
  rw [hsvn, hnew]
  exact processFileNew_v0_count cfg (enableSinceDate cfg.dumpSinceDate st r.date) r
    (svnbranchOf r) (getSvnBranchPath (svnbranchOf r) ++ "/".data ++ r.path) pfs hlen
    (by rw [hsvn]; exact hpar) hne hmem hrev

/-- C1 counterexample: with the branch dev already known and f.c already
in its file set, the version-0 record recV0 is not a no-op - a revision
header and a change node are written for it. -/
theorem c1_counterexample :
    lookupTree stKnownDev.svnTree (svnbranchOf recV0) =
        some ⟨"branches/dev".data, ["f.c".data]⟩ ∧
    (FileSet.mk "branches/dev".data ["f.c".data]).files.contains recV0.path = true ∧
    recV0.revNumber = "0".data ∧
    (process cfgPlain stKnownDev recV0).2.1 =
      [Event.revHeader 5, Event.fileChange "dev".data "f.c".data] := by
  refine ⟨by decide, by decide, by decide, by decide⟩

theorem c1_witness :
    ((process cfgPlain stParentMain recV0).2.1).countP isDumpFileNode = 0 :=
  c1_theorem cfgPlain stParentMain recV0 ⟨"branches/main".data, ["f.c".data]⟩
    (by decide) (by decide) (by decide) (by decide) (by decide) (by decide)
    (by decide) (by decide) (by decide) (by decide) (by decide)

/-! ## Revision numbering under the date cutoff (claim C10) -/

/-- C10: every call to dumpRevisionHeader increments the revision counter
by exactly one, independent of the output stream's enabled flag; in the
concrete cutoff scenario the suppressed first record consumes revision
number 1, so the first revision header actually written to the stream
carries number 2 even though at the decision level the first header was
number 1, and the final counter stands at 3. -/
theorem c10_theorem :
    (∀ st : Conv, (dumpRevisionHeader st).1.svnRevNum = st.svnRevNum + 1) ∧
    firstRevHeaderNum (writtenEvents ((initializeFile cfgSince100).2 ++
        (replay cfgSince100 (initializeFile cfgSince100).1
          [recBeforeCutoff, recAfterCutoff]).2)) = some 2 ∧
    firstRevHeaderNum (((replay cfgSince100 (initializeFile cfgSince100).1
        [recBeforeCutoff, recAfterCutoff]).2).map Prod.snd) = some 1 ∧
    (replay cfgSince100 (initializeFile cfgSince100).1
        [recBeforeCutoff, recAfterCutoff]).1.svnRevNum = 3 :=
  ⟨fun _ => rfl, by decide, by decide, by decide⟩

/-! ## The add-before-change invariant (claim C6) -/

theorem contains_true_of_mem {α : Type} [BEq α] [LawfulBEq α] {l : List α} {a : α}
    (h : a ∈ l) : l.contains a = true := List.elem_iff.mpr h

theorem mem_of_contains_true {α : Type} [BEq α] [LawfulBEq α] {l : List α} {a : α}
    (h : l.contains a = true) : a ∈ l := List.elem_iff.mp h

theorem fileSetAdd_files {fs : FileSet} {q p : Str} (h : p ∈ (fs.add q).files) :
    p = q ∨ p ∈ fs.files := by
  unfold FileSet.add at h
  split at h
  · exact Or.inr h
  · rcases List.mem_cons.mp h with h | h
    · exact Or.inl h
    · exact Or.inr h

theorem isChangeEv_false_of_not_fileNode {e : Event} (h : isDumpFileNode e = false) :
    isChangeEv e = false := by
  cases e <;> simp_all [isDumpFileNode, isChangeEv]

theorem addedStep_subset {acc : List (Str × Str)} {x : Str × Str} (e : Event)
    (h : x ∈ acc) : x ∈ addedStep acc e := by
  cases e <;> simp [addedStep, h]

theorem foldl_addedStep_subset (l : List Event) :
    ∀ (acc : List (Str × Str)) (x : Str × Str), x ∈ acc → x ∈ l.foldl addedStep acc := by
  induction l with
  | nil => intro acc x h; simpa using h
  | cons e rest ih => intro acc x h; exact ih _ x (addedStep_subset e h)

theorem addedPaths_append (tr tr2 : List Event) :
    addedPaths (tr ++ tr2) = tr2.foldl addedStep (addedPaths tr) := by
  simp [addedPaths, List.foldl_append]

theorem mem_addedPaths_append {tr : List Event} {x : Str × Str} (tr2 : List Event)
    (h : x ∈ addedPaths tr) : x ∈ addedPaths (tr ++ tr2) := by
  rw [addedPaths_append]
  exact foldl_addedStep_subset tr2 _ x h

theorem dirAdd_foldl_mem (l : List Event) :
    ∀ (acc : List (Str × Str)) (k d : Str), Event.dirAdd k d ∈ l →
      ((k, d) : Str × Str) ∈ l.foldl addedStep acc := by
  induction l with
  | nil => intro acc k d h; simp at h
  | cons e rest ih =>
      intro acc k d h
      rcases List.mem_cons.mp h with rfl | h2
      · exact foldl_addedStep_subset rest _ _ (by simp [addedStep])
      · exact ih _ k d h2

theorem fileAdd_foldl_mem (l : List Event) :
    ∀ (acc : List (Str × Str)) (k d : Str), Event.fileAdd k d ∈ l →
      ((k, d) : Str × Str) ∈ l.foldl addedStep acc := by
  induction l with
  | nil => intro acc k d h; simp at h
  | cons e rest ih =>
      intro acc k d h
      rcases List.mem_cons.mp h with rfl | h2
      · exact foldl_addedStep_subset rest _ _ (by simp [addedStep])
      · exact ih _ k d h2

theorem dirCopy_addedStep_mem {acc : List (Str × Str)} {parent p : Str} (child : Str)
    (n : Nat) (h : ((parent, p) : Str × Str) ∈ acc) :
    ((child, p) : Str × Str) ∈ addedStep acc (Event.dirCopy parent child n) := by
  simp only [addedStep, List.mem_append]
  left
  exact List.mem_filterMap.mpr ⟨(parent, p), h, by simp⟩

theorem changesCoveredFrom_append (a : List Event) :
    ∀ (tr b : List Event),
      changesCoveredFrom tr (a ++ b)
        = (changesCoveredFrom tr a && changesCoveredFrom (tr ++ a) b) := by
  induction a with
  | nil => intro tr b; simp [changesCoveredFrom]
  | cons e rest ih =>
      intro tr b
      simp only [List.cons_append, changesCoveredFrom, List.append_eq]
      rw [ih]
      simp [List.append_assoc, Bool.and_assoc]

theorem changesCoveredFrom_of_no_change (evs : List Event)
    (h : ∀ e ∈ evs, isChangeEv e = false) : ∀ tr, changesCoveredFrom tr evs = true := by
  induction evs with
  | nil => intro tr; rfl
  | cons e rest ih =>
      intro tr
      have he := h e (List.mem_cons_self _ _)
      have hrest := ih fun e2 h2 => h e2 (List.mem_cons_of_mem _ h2)
      cases e <;> simp_all [changesCoveredFrom, isChangeEv]

theorem lookup_updateTree (t : List (Str × FileSet)) (k : Str) (fs : FileSet) (k2 : Str) :
    lookupTree (updateTree t k fs) k2 = if k2 = k then some fs else lookupTree t k2 := by
  induction t with
  | nil =>
      simp only [updateTree, lookupTree]
      by_cases h : k = k2
      · subst h; simp
      · rw [if_neg h, if_neg (fun hh => h hh.symm)]
  | cons head rest ih =>
      obtain ⟨k0, f0⟩ := head
      simp only [updateTree]
      by_cases h1 : k0 = k
      · subst h1
        simp only [if_pos rfl, lookupTree]
        by_cases h2 : k0 = k2
        · subst h2; simp
        · rw [if_neg h2, if_neg (fun hh => h2 hh.symm), if_neg h2]
      · rw [if_neg h1]
        by_cases h2 : k0 = k2
        · subst h2
          simp only [lookupTree, if_pos rfl]
          rw [if_neg (fun hh : k0 = k => h1 hh)]
          simp
        · simp only [lookupTree, if_neg h2, ih]

theorem createParentDirsGo_files (fuel : Nat) :
    ∀ (k : Str) (fs : FileSet) (path : Str) (p : Str),
      p ∈ (createParentDirsGo fuel k fs path).1.files →
      p ∈ fs.files ∨ Event.dirAdd k p ∈ (createParentDirsGo fuel k fs path).2 := by
  induction fuel with
  | zero => intro k fs path p hp; exact Or.inl hp
  | succ fuel ih =>
      intro k fs path p hp
      by_cases h1 : dirname path = []
      · simp only [createParentDirsGo, if_pos h1] at hp
        exact Or.inl hp
      · by_cases h2 : fs.files.contains (dirname path) = true
        · simp only [createParentDirsGo, if_neg h1, if_pos h2] at hp
          exact Or.inl hp
        · simp only [createParentDirsGo, if_neg h1, if_neg h2] at hp ⊢
          rcases fileSetAdd_files hp with rfl | hp2
          · exact Or.inr (List.mem_append.mpr (Or.inr (List.mem_singleton.mpr rfl)))
          · rcases ih k fs (dirname path) p hp2 with h | h
            · exact Or.inl h
            · exact Or.inr (List.mem_append.mpr (Or.inl h))

theorem createParentDirs_cov (k : Str) (fs : FileSet) (path : Str) (tr : List Event)
    (h : ∀ p ∈ fs.files, ((k, p) : Str × Str) ∈ addedPaths tr) :
    ∀ p ∈ (createParentDirs k fs path).1.files,
      ((k, p) : Str × Str) ∈ addedPaths (tr ++ (createParentDirs k fs path).2) := by
  intro p hp
  rcases createParentDirsGo_files path.length k fs path p hp with h2 | h2
  · exact mem_addedPaths_append _ (h p h2)
  · rw [addedPaths_append]
    exact dirAdd_foldl_mem _ _ k p h2

theorem treeCovered_extend {tr : List Event} {st : Conv} (X : List Event)
    (h : TreeCovered tr st) : TreeCovered (tr ++ X) st :=
  fun k fs hl p hp => mem_addedPaths_append X (h k fs hl p hp)

theorem treeCovered_of_eq_svnTree {tr : List Event} {st st2 : Conv}
    (he : st2.svnTree = st.svnTree) (h : TreeCovered tr st) : TreeCovered tr st2 := by
  intro k fs hl p hp
  rw [he] at hl
  exact h k fs hl p hp

theorem getTagFileset_cov (tr : List Event) (st : Conv) (l : Str) (h : TreeCovered tr st) :
    TreeCovered tr (getTagFileset st l).2.1 ∧
    ∀ p ∈ (getTagFileset st l).1.files, ((l, p) : Str × Str) ∈ addedPaths tr := by
  cases hl : lookupTree st.svnTree l with
  | some fs =>
      simp only [getTagFileset, hl]
      exact ⟨h, fun p hp => h l fs hl p hp⟩
  | none =>
      simp only [getTagFileset, hl]
      constructor
      · intro k2 fs2 hk2 p hp
        dsimp only at hk2
        rw [lookup_updateTree] at hk2
        by_cases hkl : k2 = l
        · rw [if_pos hkl] at hk2
          injection hk2 with hfs
          rw [← hfs] at hp
          simp at hp
        · rw [if_neg hkl] at hk2
          exact h k2 fs2 hk2 p hp
      · intro p hp
        simp at hp

theorem labelsLoop_cov (cfg : Config) (rpath svnpath : Str) (cfr : Nat) (ul : Bool) :
    ∀ (ls : List Str) (first : Bool) (st : Conv) (tr : List Event),
      TreeCovered tr st →
      TreeCovered (tr ++ (labelsLoop cfg rpath svnpath cfr ul ls first st).2)
        (labelsLoop cfg rpath svnpath cfr ul ls first st).1 := by
  intro ls
  induction ls with
  | nil =>
      intro first st tr h
      simp only [labelsLoop, List.append_nil]
      exact h
  | cons l ls ih =>
      intro first st tr h
      by_cases hp : passesLabel cfg.labels l = true
      · simp only [labelsLoop, hp, if_true]
        have h1 : TreeCovered tr
            (if first = true then { st with svnRevNum := st.svnRevNum + 1 } else st) := by
          split <;> exact h
        have hg := getTagFileset_cov tr
          (if first = true then { st with svnRevNum := st.svnRevNum + 1 } else st) l h1
        rw [← List.append_assoc]
        refine ih false _ _ ?_
        rw [← List.append_assoc, ← List.append_assoc, ← List.append_assoc]
        have hcov : TreeCovered
            ((((tr ++ (if first = true then [Event.revHeader st.svnRevNum] else []))
                ++ (getTagFileset
                     (if first = true then { st with svnRevNum := st.svnRevNum + 1 } else st)
                     l).2.2)
                ++ (createParentDirs l
                     (getTagFileset
                       (if first = true then { st with svnRevNum := st.svnRevNum + 1 } else st)
                       l).1 rpath).2)
              ++ [Event.fileCopy svnpath l rpath cfr])
            { (getTagFileset
                (if first = true then { st with svnRevNum := st.svnRevNum + 1 } else st)
                l).2.1 with
              svnTree := updateTree
                (getTagFileset
                  (if first = true then { st with svnRevNum := st.svnRevNum + 1 } else st)
                  l).2.1.svnTree l
                (createParentDirs l
                  (getTagFileset
                    (if first = true then { st with svnRevNum := st.svnRevNum + 1 } else st)
                    l).1 rpath).1 } := by
          intro k2 fs2 hk2 p hp2
          dsimp only at hk2
          rw [lookup_updateTree] at hk2
          by_cases hkl : k2 = l
          · rw [if_pos hkl] at hk2
            injection hk2 with hfs
            rw [← hfs] at hp2
            rw [hkl]
            have hbase : ∀ q ∈ (getTagFileset
                (if first = true then { st with svnRevNum := st.svnRevNum + 1 } else st)
                l).1.files,
                ((l, q) : Str × Str) ∈ addedPaths
                  ((tr ++ (if first = true then [Event.revHeader st.svnRevNum] else []))
                    ++ (getTagFileset
                        (if first = true then { st with svnRevNum := st.svnRevNum + 1 } else st)
                        l).2.2) :=
              fun q hq => mem_addedPaths_append _ (mem_addedPaths_append _ (hg.2 q hq))
            have hcpd := createParentDirs_cov l _ rpath _ hbase
            exact mem_addedPaths_append _ (hcpd p hp2)
          · rw [if_neg hkl] at hk2
            exact mem_addedPaths_append _ (mem_addedPaths_append _ (mem_addedPaths_append _
              (mem_addedPaths_append _ (hg.1 k2 fs2 hk2 p hp2))))
        apply treeCovered_of_eq_svnTree ?_ hcov
        split <;> rfl
      · simp only [labelsLoop, hp, Bool.false_eq_true, if_false]
        exact ih first st tr h

theorem processLabels_cov (cfg : Config) (st : Conv) (r : CCRecord) (svnpath : Str)
    (ul : Bool) (tr : List Event) (h : TreeCovered tr st) :
    TreeCovered (tr ++ (processLabels cfg st r svnpath ul).2)
      (processLabels cfg st r svnpath ul).1 := by
  unfold processLabels
  exact labelsLoop_cov cfg r.path svnpath _ ul r.labels true _ tr h

theorem treeCovered_update {tr : List Event} {st : Conv} {k : Str} {fs : FileSet}
    (h : TreeCovered tr st)
    (hfs : ∀ p ∈ fs.files, ((k, p) : Str × Str) ∈ addedPaths tr) :
    TreeCovered tr { st with svnTree := updateTree st.svnTree k fs } := by
  intro k2 fs2 hk2 p hp
  dsimp only at hk2
  rw [lookup_updateTree] at hk2
  by_cases hkl : k2 = k
  · rw [if_pos hkl] at hk2
    injection hk2 with hfs2
    rw [← hfs2] at hp
    rw [hkl]
    exact hfs p hp
  · rw [if_neg hkl] at hk2
    exact h k2 fs2 hk2 p hp

theorem append_shape2 (tr : List Event) (a b : Event) (M : List Event) :
    tr ++ (a :: b :: M) = (tr ++ [a, b]) ++ M := by simp

theorem append_shape3 (tr : List Event) (a : Event) (M : List Event) :
    tr ++ (a :: M) = (tr ++ [a]) ++ M := by simp

theorem append_shape4 (tr : List Event) (L : List Event) (b : Event) (M : List Event) :
    tr ++ (L ++ b :: M) = ((tr ++ L) ++ [b]) ++ M := by simp

theorem append_shape1 (tr : List Event) (a : Event) (L : List Event) (b : Event)
    (M : List Event) :
    tr ++ (a :: (L ++ b :: M)) = (((tr ++ [a]) ++ L) ++ [b]) ++ M := by simp

theorem processFileKnown_ok (cfg : Config) (st : Conv) (r : CCRecord)
    (svnbranch svnpath : Str) (fs : FileSet) (tr : List Event)
    (h : TreeCovered tr st) (hl : lookupTree st.svnTree svnbranch = some fs) :
    TreeCovered (tr ++ (processFileKnown cfg st r svnbranch svnpath fs).2)
        (processFileKnown cfg st r svnbranch svnpath fs).1 ∧
    changesCoveredFrom tr (processFileKnown cfg st r svnbranch svnpath fs).2 = true := by
  unfold processFileKnown
  by_cases hc : fs.files.contains r.path = true
  · rw [if_pos hc]
    dsimp only [dumpRevisionHeader]
    constructor
    · rw [append_shape2]
      exact processLabels_cov cfg _ r svnpath true _
        (treeCovered_extend _ (treeCovered_of_eq_svnTree rfl h))
    · simp only [changesCoveredFrom]
      have hmem : ((svnbranch, r.path) : Str × Str) ∈
          addedPaths (tr ++ [Event.revHeader st.svnRevNum]) :=
        mem_addedPaths_append _ (h svnbranch fs hl r.path (mem_of_contains_true hc))
      have hpl := changesCoveredFrom_of_no_change
        (processLabels cfg { st with svnRevNum := st.svnRevNum + 1 } r svnpath true).2
        (fun e he => isChangeEv_false_of_not_fileNode (processLabels_events _ _ _ _ _ e he))
        (tr ++ [Event.revHeader st.svnRevNum, Event.fileChange svnbranch r.path])
      simp
      exact ⟨hmem, hpl⟩
  · rw [if_neg hc]
    dsimp only [dumpRevisionHeader]
    constructor
    · rw [append_shape1]
      apply processLabels_cov
      apply treeCovered_update
      · exact treeCovered_extend _ (treeCovered_extend _ (treeCovered_extend _
          (treeCovered_of_eq_svnTree rfl h)))
      · intro p hp
        rcases fileSetAdd_files hp with rfl | hp2
        · rw [addedPaths_append]
          exact fileAdd_foldl_mem _ _ _ _ (List.mem_singleton.mpr rfl)
        · exact mem_addedPaths_append _ (createParentDirs_cov svnbranch fs r.path _
            (fun q hq => mem_addedPaths_append _ (h svnbranch fs hl q hq)) p hp2)
    · apply changesCoveredFrom_of_no_change
      intro e he
      rcases List.mem_cons.mp he with rfl | he2
      · rfl
      · rcases List.mem_append.mp he2 with he3 | he4
        · obtain ⟨d, rfl⟩ := createParentDirs_events _ _ _ _ he3; rfl
        · rcases List.mem_cons.mp he4 with rfl | he5
          · rfl
          · exact isChangeEv_false_of_not_fileNode (processLabels_events _ _ _ _ _ _ he5)

theorem processFileNewTail_ok (cfg : Config) (st : Conv) (r : CCRecord)
    (svnbranch svnpath : Str) (newFs : FileSet) (tr : List Event)
    (h : TreeCovered tr st)
    (hfs : ∀ p ∈ newFs.files, ((svnbranch, p) : Str × Str) ∈ addedPaths tr) :
    TreeCovered (tr ++ (processFileNewTail cfg st r svnbranch svnpath newFs).2)
        (processFileNewTail cfg st r svnbranch svnpath newFs).1 ∧
    changesCoveredFrom tr (processFileNewTail cfg st r svnbranch svnpath newFs).2 = true := by
  unfold processFileNewTail
  by_cases hc : newFs.files.contains r.path = true
  · rw [if_pos hc]
    by_cases hr : r.revNumber ≠ "0".data
    · rw [if_pos hr]
      dsimp only
      constructor
      · rw [append_shape3]
        exact processLabels_cov cfg _ r svnpath true _ (treeCovered_extend _ h)
      · simp only [changesCoveredFrom]
        have hmem : ((svnbranch, r.path) : Str × Str) ∈ addedPaths tr :=
          hfs r.path (mem_of_contains_true hc)
        have hpl := changesCoveredFrom_of_no_change
          (processLabels cfg st r svnpath true).2
          (fun e he => isChangeEv_false_of_not_fileNode (processLabels_events _ _ _ _ _ e he))
          (tr ++ [Event.fileChange svnbranch r.path])
        simp [hpl]
        exact hmem
    · rw [if_neg hr]
      constructor
      · exact processLabels_cov cfg _ r svnpath true _ h
      · exact changesCoveredFrom_of_no_change _
          (fun e he => isChangeEv_false_of_not_fileNode (processLabels_events _ _ _ _ _ e he)) tr
  · rw [if_neg hc]
    dsimp only
    constructor
    · rw [append_shape4]
      apply processLabels_cov
      apply treeCovered_update
      · exact treeCovered_extend _ (treeCovered_extend _ h)
      · intro p hp
        rcases fileSetAdd_files hp with rfl | hp2
        · rw [addedPaths_append]
          exact fileAdd_foldl_mem _ _ _ _ (List.mem_singleton.mpr rfl)
        · exact mem_addedPaths_append _
            (createParentDirs_cov svnbranch newFs r.path _ hfs p hp2)
    · apply changesCoveredFrom_of_no_change
      intro e he
      rcases List.mem_append.mp he with he3 | he4
      · obtain ⟨d, rfl⟩ := createParentDirs_events _ _ _ _ he3; rfl
      · rcases List.mem_cons.mp he4 with rfl | he5
        · rfl
        · exact isChangeEv_false_of_not_fileNode (processLabels_events _ _ _ _ _ _ he5)

theorem processFileNew_ok (cfg : Config) (st : Conv) (r : CCRecord)
    (svnbranch svnpath : Str) (tr : List Event) (h : TreeCovered tr st) :
    TreeCovered (tr ++ (processFileNew cfg st r svnbranch svnpath).2.1)
        (processFileNew cfg st r svnbranch svnpath).1 ∧
    changesCoveredFrom tr (processFileNew cfg st r svnbranch svnpath).2.1 = true := by
  unfold processFileNew
  dsimp only [dumpRevisionHeader]
  by_cases hlen : r.branchNames.length < 2
  · rw [if_pos hlen]
    dsimp only
    have htl := processFileNewTail_ok cfg
      { svnTree := updateTree st.svnTree svnbranch ⟨getSvnBranchPath svnbranch, []⟩
        ccTree := st.ccTree
        svnRevNum := st.svnRevNum + 1
        checklabels := st.checklabels
        outEnabled := st.outEnabled }
      r svnbranch svnpath ⟨getSvnBranchPath svnbranch, []⟩
      (tr ++ [Event.revHeader st.svnRevNum,
        Event.dirRootAdd svnbranch (getSvnBranchPath svnbranch)])
      (treeCovered_update (treeCovered_extend _ h) (fun p hp => absurd hp (by simp)))
      (fun p hp => absurd hp (by simp))
    constructor
    · rw [append_shape2]
      exact htl.1
    · simp only [changesCoveredFrom]
      simp [htl.2]
  · rw [if_neg hlen]
    cases hle : lookupTree st.svnTree (r.branchNames.dropLast.getLast?.getD []) with
    | some pfs =>
        dsimp only
        by_cases hem : pfs.files.isEmpty = true
        · rw [if_pos hem]
          by_cases hig : (cfg.ignoreChildBranchWarning || cfg.userAnswersYes) = true
          · rw [if_pos hig]
            dsimp only
            have htl := processFileNewTail_ok cfg
              { svnTree := updateTree st.svnTree svnbranch ⟨getSvnBranchPath svnbranch, []⟩
                ccTree := st.ccTree
                svnRevNum := st.svnRevNum + 1
                checklabels := st.checklabels
                outEnabled := st.outEnabled }
              r svnbranch svnpath ⟨getSvnBranchPath svnbranch, []⟩
              (tr ++ [Event.revHeader st.svnRevNum,
                Event.dirRootAdd svnbranch (getSvnBranchPath svnbranch)])
              (treeCovered_update (treeCovered_extend _ h) (fun p hp => absurd hp (by simp)))
              (fun p hp => absurd hp (by simp))
            constructor
            · rw [append_shape2]
              exact htl.1
            · simp only [changesCoveredFrom]
              simp [htl.2]
          · rw [if_neg hig]
            constructor
            · rw [append_shape3]
              exact treeCovered_extend _ (treeCovered_extend _
                (treeCovered_of_eq_svnTree rfl h))
            · simp [changesCoveredFrom]
        · rw [if_neg hem]
          dsimp only
          have hbase : ∀ p ∈ pfs.files, ((svnbranch, p) : Str × Str) ∈
              addedPaths (tr ++ [Event.revHeader st.svnRevNum,
                Event.dirCopy (r.branchNames.dropLast.getLast?.getD []) svnbranch
                  (st.svnRevNum - 1)]) := by
            intro p hp
            rw [show tr ++ [Event.revHeader st.svnRevNum,
                Event.dirCopy (r.branchNames.dropLast.getLast?.getD []) svnbranch
                  (st.svnRevNum - 1)]
              = (tr ++ [Event.revHeader st.svnRevNum]) ++
                [Event.dirCopy (r.branchNames.dropLast.getLast?.getD []) svnbranch
                  (st.svnRevNum - 1)] from by simp]
            rw [addedPaths_append]
            simp only [List.foldl]
            exact dirCopy_addedStep_mem svnbranch _
              (mem_addedPaths_append _ (h _ pfs hle p hp))
          have htl := processFileNewTail_ok cfg
            { svnTree := updateTree st.svnTree svnbranch ⟨getSvnBranchPath svnbranch, pfs.files⟩
              ccTree := st.ccTree
              svnRevNum := st.svnRevNum + 1
              checklabels := st.checklabels
              outEnabled := st.outEnabled }
            r svnbranch svnpath ⟨getSvnBranchPath svnbranch, pfs.files⟩
            (tr ++ [Event.revHeader st.svnRevNum,
              Event.dirCopy (r.branchNames.dropLast.getLast?.getD []) svnbranch
                (st.svnRevNum - 1)])
            (treeCovered_update (treeCovered_extend _ h) hbase) hbase
          constructor
          · rw [append_shape2]
            exact htl.1
          · simp only [changesCoveredFrom]
            simp [htl.2]
    | none =>
        dsimp only
        by_cases hig : (cfg.ignoreChildBranchWarning || cfg.userAnswersYes) = true
        · rw [if_pos hig]
          dsimp only
          have htl := processFileNewTail_ok cfg
            { svnTree := updateTree st.svnTree svnbranch ⟨getSvnBranchPath svnbranch, []⟩
              ccTree := st.ccTree
              svnRevNum := st.svnRevNum + 1
              checklabels := st.checklabels
              outEnabled := st.outEnabled }
            r svnbranch svnpath ⟨getSvnBranchPath svnbranch, []⟩
            (tr ++ [Event.revHeader st.svnRevNum,
              Event.dirRootAdd svnbranch (getSvnBranchPath svnbranch)])
            (treeCovered_update (treeCovered_extend _ h) (fun p hp => absurd hp (by simp)))
            (fun p hp => absurd hp (by simp))
          constructor
          · rw [append_shape2]
            exact htl.1
          · simp only [changesCoveredFrom]
            simp [htl.2]
        · rw [if_neg hig]
          constructor
          · rw [append_shape3]
            exact treeCovered_extend _ (treeCovered_extend _
              (treeCovered_of_eq_svnTree rfl h))
          · simp [changesCoveredFrom]

theorem processDirVersion_ok (cfg : Config) (st : Conv) (r : CCRecord)
    (svnbranch : Str) (tr : List Event) (h : TreeCovered tr st) :
    TreeCovered (tr ++ (processDirVersion cfg st r svnbranch).2)
        (processDirVersion cfg st r svnbranch).1 ∧
    changesCoveredFrom tr (processDirVersion cfg st r svnbranch).2 = true := by
  unfold processDirVersion
  cases hl : lookupTree st.svnTree svnbranch with
  | none =>
      dsimp only
      exact ⟨by simpa using h, rfl⟩
  | some fs =>
      dsimp only
      by_cases hem : fs.files.isEmpty = true
      · rw [if_pos hem]
        exact ⟨by simpa using h, rfl⟩
      · rw [if_neg hem]
        by_cases hc : fs.files.contains r.path = true
        · rw [if_pos hc]
          refine ⟨?_, rfl⟩
          simpa using treeCovered_of_eq_svnTree rfl h
        · rw [if_neg hc]
          dsimp only [dumpRevisionHeader]
          constructor
          · rw [show tr ++ (Event.revHeader st.svnRevNum ::
                ((createParentDirs svnbranch fs r.path).2 ++
                  [Event.dirAdd svnbranch r.path]))
              = (((tr ++ [Event.revHeader st.svnRevNum]) ++
                  (createParentDirs svnbranch fs r.path).2) ++
                  [Event.dirAdd svnbranch r.path]) from by simp]
            refine treeCovered_of_eq_svnTree rfl
              (@treeCovered_update _ { st with svnRevNum := st.svnRevNum + 1 } svnbranch
                ((createParentDirs svnbranch fs r.path).1.add r.path) ?_ ?_)
            · exact treeCovered_extend _ (treeCovered_extend _ (treeCovered_extend _
                (treeCovered_of_eq_svnTree rfl h)))
            · intro p hp
              rcases fileSetAdd_files hp with rfl | hp2
              · rw [addedPaths_append]
                exact dirAdd_foldl_mem _ _ _ _ (List.mem_singleton.mpr rfl)
              · exact mem_addedPaths_append _ (createParentDirs_cov svnbranch fs r.path _
                  (fun q hq => mem_addedPaths_append _ (h svnbranch fs hl q hq)) p hp2)
          · apply changesCoveredFrom_of_no_change
            intro e he
            rcases List.mem_cons.mp he with rfl | he2
            · rfl
            · rcases List.mem_append.mp he2 with he3 | he4
              · obtain ⟨d, rfl⟩ := createParentDirs_events _ _ _ _ he3; rfl
              · rw [List.mem_singleton.mp he4]; rfl

theorem process_ok (cfg : Config) (st : Conv) (r : CCRecord) (tr : List Event)
    (h : TreeCovered tr st) :
    TreeCovered (tr ++ (process cfg st r).2.1) (process cfg st r).1 ∧
    changesCoveredFrom tr (process cfg st r).2.1 = true := by
  unfold process
  by_cases hdot : r.path = ".".data
  · rw [if_pos hdot]
    exact ⟨by simpa using h, rfl⟩
  · rw [if_neg hdot]
    by_cases hbr : branchExcluded cfg.branches (svnbranchOf r) = true
    · simp only [hbr, if_true]
      exact ⟨by simpa using h, rfl⟩
    · simp only [hbr, Bool.false_eq_true, if_false]
      by_cases hig : isIgnored cfg.ignoredDirectories r.path = true
      · simp only [hig, if_true]
        exact ⟨by simpa using h, rfl⟩
      · simp only [hig, Bool.false_eq_true, if_false]
        have hEn : TreeCovered tr (enableSinceDate cfg.dumpSinceDate st r.date) :=
          treeCovered_of_eq_svnTree (enableSinceDate_svnTree _ _ _) h
        by_cases hv : (r.typ = "version".data ∧ isVersionOp r.operation = true)
        · rw [if_pos hv]
          rw [enableSinceDate_svnTree]
          cases hlk : lookupTree st.svnTree (svnbranchOf r) with
          | some fs =>
              dsimp only
              have := processFileKnown_ok cfg (enableSinceDate cfg.dumpSinceDate st r.date) r
                (svnbranchOf r) (getSvnBranchPath (svnbranchOf r) ++ "/".data ++ r.path) fs tr
                hEn (by rw [enableSinceDate_svnTree]; exact hlk)
              exact this
          | none =>
              exact processFileNew_ok cfg (enableSinceDate cfg.dumpSinceDate st r.date) r
                (svnbranchOf r) (getSvnBranchPath (svnbranchOf r) ++ "/".data ++ r.path) tr hEn
        · rw [if_neg hv]
          by_cases hd : (r.typ = "directory version".data ∧ isVersionOp r.operation = true)
          · rw [if_pos hd]
            dsimp only
            exact processDirVersion_ok cfg (enableSinceDate cfg.dumpSinceDate st r.date) r
              (svnbranchOf r) tr hEn
          · rw [if_neg hd]
            by_cases hs : (r.typ = "symbolic link".data ∧ r.operation = "mkslink".data)
            · rw [if_pos hs]
              exact ⟨by simpa using hEn, rfl⟩
            · rw [if_neg hs]
              exact ⟨by simpa using hEn, rfl⟩

theorem replay_ok (cfg : Config) :
    ∀ (rs : List CCRecord) (st : Conv) (tr : List Event), TreeCovered tr st →
      changesCoveredFrom tr ((replay cfg st rs).2.map Prod.snd) = true := by
  intro rs
  induction rs with
  | nil => intro st tr _; rfl
  | cons r rs ih =>
      intro st tr h
      have hp := process_ok cfg st r tr h
      simp only [replay]
      by_cases hh : (process cfg st r).2.2 = true
      · rw [if_pos hh]
        dsimp only
        rw [show ((process cfg st r).2.1.map
              fun e => ((process cfg st r).1.outEnabled, e)).map Prod.snd
            = (process cfg st r).2.1 from by simp]
        exact hp.2
      · rw [if_neg hh]
        dsimp only
        rw [List.map_append]
        rw [show ((process cfg st r).2.1.map
              fun e => ((process cfg st r).1.outEnabled, e)).map Prod.snd
            = (process cfg st r).2.1 from by simp]
        rw [changesCoveredFrom_append, hp.2,
          ih (process cfg st r).1 (tr ++ (process cfg st r).2.1) hp.1]
        rfl

theorem initializeFile_tree (cfg : Config) : (initializeFile cfg).1.svnTree = [] := by
  unfold initializeFile dumpRevisionHeader
  dsimp only
  split
  · split <;> rfl
  · split <;> rfl

theorem treeCovered_empty (tr : List Event) (st : Conv) (h : st.svnTree = []) :
    TreeCovered tr st := by
  intro k fs hl p hp
  rw [h] at hl
  simp [lookupTree] at hl

theorem initializeFile_no_change (cfg : Config) :
    ∀ e ∈ (initializeFile cfg).2.map Prod.snd, isChangeEv e = false := by
  unfold initializeFile dumpRevisionHeader
  intro e he
  dsimp only at he
  by_cases hc : cfg.createBranchesTagsDirs = true
  · rw [if_pos hc] at he
    simp at he
    rcases he with rfl | rfl | rfl | rfl <;> rfl
  · rw [if_neg hc] at he
    simp at he
    rw [he]
    rfl

/-- C6: over every record sequence replayed oldest-first from a fresh
converter, whenever a file node with action change is emitted for a
(tree, path) pair, the decision-level trace up to that point already
contains an add of that pair - a direct file or directory add, or
inclusion of the path in the directory copy that created the branch. -/
theorem c6_theorem (cfg : Config) (rs : List CCRecord) :
    changesCoveredFrom []
      (((initializeFile cfg).2 ++ (replay cfg (initializeFile cfg).1 rs).2).map Prod.snd)
      = true := by
  rw [List.map_append, changesCoveredFrom_append]
  have h1 : changesCoveredFrom [] ((initializeFile cfg).2.map Prod.snd) = true :=
    changesCoveredFrom_of_no_change _ (initializeFile_no_change cfg) []
  have h2 := replay_ok cfg rs (initializeFile cfg).1
    ((initializeFile cfg).2.map Prod.snd)
    (treeCovered_empty _ _ (initializeFile_tree cfg))
  rw [h1]
  rw [List.nil_append]
  rw [h2]
  rfl
